import Mathlib

/-!
# Verification of `lib/query-interface.js` (Sequelize QueryInterface)

A shallow embedding, in Lean 4, of the dialect-dispatch, transaction-control
and introspection logic of Sequelize's `QueryInterface` class, together with
theorems settling the specification claims about it.

Conventions used throughout:

* JavaScript runtime values that matter to control flow are modelled by the
  inductive type `JsVal`; JavaScript truthiness by `JsVal.truthy`.
* A promise chain is modelled by explicit sequencing in `Except`: a rejected
  promise is `Except.error`, and `.then` continuations after a rejection do
  not run, exactly as in the source.
* The external collaborators (SQL generator, executor) are parameters of the
  embedded functions, so theorems quantify over every dialect behaviour.
* Where the side effects matter (which statements were sent, in which order),
  functions also return the ordered list of statements issued.
-/

namespace Sequelize

/-- JavaScript values, to the granularity the embedded control flow needs:
`null`, `undefined`, booleans, numbers, strings and plain objects
(association lists of fields). -/
inductive JsVal where
  | null
  | undefined
  | bool (b : Bool)
  | num (n : Int)
  | str (s : String)
  | obj (fields : List (String × JsVal))
  deriving Repr

mutual

/-- Structural (and, on the primitives the source compares with `===`,
strict-equality) comparison of `JsVal`s. -/
def JsVal.beq : JsVal → JsVal → Bool
  | .null, .null => true
  | .undefined, .undefined => true
  | .bool a, .bool b => a == b
  | .num a, .num b => a == b
  | .str a, .str b => a == b
  | .obj a, .obj b => JsVal.beqFields a b
  | _, _ => false

/-- Field-list comparison for `JsVal.beq`. -/
def JsVal.beqFields : List (String × JsVal) → List (String × JsVal) → Bool
  | [], [] => true
  | (k₁, v₁) :: t₁, (k₂, v₂) :: t₂ =>
      k₁ == k₂ && JsVal.beq v₁ v₂ && JsVal.beqFields t₁ t₂
  | _, _ => false

end

instance : BEq JsVal := ⟨JsVal.beq⟩

/-- JavaScript truthiness: `null`, `undefined`, `false`, `0` and `""` are
falsy; every other value (including every object) is truthy. -/
def JsVal.truthy : JsVal → Bool
  | .null => false
  | .undefined => false
  | .bool b => b
  | .num n => !(n == 0)
  | .str s => !(s == "")
  | .obj _ => true

/-- Property access `v[name]` on a `JsVal`: on an object, the first field with
that name (`undefined` when absent); on any non-object, `undefined` (the
embedding only reads properties that primitives do not define). -/
def JsVal.get : JsVal → String → JsVal
  | .obj fields, name => (fields.lookup name).getD .undefined
  | _, _ => .undefined

/-- Whether a `JsVal` is a boolean. -/
def JsVal.isBool : JsVal → Bool
  | .bool _ => true
  | _ => false

/-! ## Transaction handles

`lib/transaction.js` handles as `commitTransaction` / `rollbackTransaction` /
`setAutocommit` / `setIsolationLevel` see them: what matters to the embedded
control flow is whether `transaction.parent` is set (a savepoint handle) and
the `finished` marker those methods write. -/

/-- A transaction handle. `parent = true` models a set (truthy)
`transaction.parent` back-reference, i.e. a savepoint handle; `finished` is
the state marker (`none` before commit/rollback, `some "commit"` or
`some "rollback"` after). -/
structure Transaction where
  parent : Bool
  finished : Option String
  deriving DecidableEq, Repr

/-- Outcome of the executor for a single statement: the promise returned by
`sequelize.query` either fulfills or rejects. -/
inductive QueryOutcome where
  | success
  | failure (e : String)
  deriving DecidableEq, Repr

/-- `QueryInterface.commitTransaction` (src/lib/query-interface.js:1373-1393),
as observed once the returned promise settles. If `transaction.parent` is set
it resolves at once (savepoints cannot be committed) and touches nothing.
Otherwise it issues the commit statement, assigns
`transaction.finished = 'commit'` synchronously — before the query promise
settles, hence irrespective of the statement's outcome — and returns the query
promise. The result is the settled transaction handle, the statement outcome,
and whether a commit statement was issued. -/
def commitTransaction (t : Transaction) (outcome : QueryOutcome) :
    Transaction × Except String Unit × Bool :=
  if t.parent then
    -- Savepoints cannot be committed
    (t, .ok (), false)
  else
    let t' := { t with finished := some "commit" }
    match outcome with
    | .success => (t', .ok (), true)
    | .failure e => (t', .error e, true)

/-- `QueryInterface.rollbackTransaction` (src/lib/query-interface.js:1395-1411),
as observed once the returned promise settles. There is no savepoint guard:
the rollback statement (a `ROLLBACK TO SAVEPOINT` for a savepoint handle) is
always issued, and `transaction.finished = 'rollback'` is assigned
synchronously before the query promise settles, irrespective of the
statement's outcome. -/
def rollbackTransaction (t : Transaction) (outcome : QueryOutcome) :
    Transaction × Except String Unit × Bool :=
  let t' := { t with finished := some "rollback" }
  match outcome with
  | .success => (t', .ok (), true)
  | .failure e => (t', .error e, true)

/-- C1, counterexample: a root transaction handle whose commit statement fails.
The claim says a statement failure during commit leaves the handle's state
unmodified; in the code `transaction.finished = 'commit'` is assigned
unconditionally before the query promise settles, so after the failed commit
the state reads `some "commit"`, not the unmodified `none`. -/
theorem commitTransaction_failure_marks_state :
    (commitTransaction ⟨false, none⟩ (.failure "deadlock")).1.finished
        = some "commit"
      ∧ (commitTransaction ⟨false, none⟩ (.failure "deadlock")).2.1
        = .error "deadlock"
      ∧ some "commit" ≠ (none : Option String) := by
  refine ⟨rfl, rfl, by simp⟩

/-- C1, amended: for a root handle, `commitTransaction` and
`rollbackTransaction` mark the handle's state (`'commit'` / `'rollback'`)
before the returned promise settles and propagate the statement outcome; the
marking is unconditional, so a failing statement also leaves the state marked,
never unmodified. (`rollbackTransaction` marks the state even on a savepoint
handle; `commitTransaction` on a savepoint handle resolves without issuing a
statement and without marking.) -/
theorem commit_rollback_mark_state_unconditionally
    (t : Transaction) (outcome : QueryOutcome) :
    (t.parent = false →
        (commitTransaction t outcome).1.finished = some "commit")
      ∧ (rollbackTransaction t outcome).1.finished = some "rollback"
      ∧ (t.parent = true → commitTransaction t outcome = (t, .ok (), false))
      ∧ ((commitTransaction t outcome).2.1 = .ok () ↔
          (t.parent = true ∨ outcome = .success))
      ∧ ((rollbackTransaction t outcome).2.1 = .ok () ↔ outcome = .success) := by
  unfold commitTransaction rollbackTransaction
  cases t with
  | mk parent finished =>
    cases parent <;> cases outcome <;> simp

/-- C1, witness for the amended theorem at a concrete root handle and a
failing outcome. -/
theorem commit_rollback_mark_state_unconditionally_witness :
    (commitTransaction ⟨false, none⟩ (.failure "boom")).1.finished
        = some "commit"
      ∧ (rollbackTransaction ⟨false, none⟩ (.failure "boom")).1.finished
        = some "rollback" := by
  have h := commit_rollback_mark_state_unconditionally
    ⟨false, none⟩ (.failure "boom")
  exact ⟨h.1 rfl, h.2.1⟩

/-! ## Root-only transaction session operations (C5)

`setAutocommit` and `setIsolationLevel`
(src/lib/query-interface.js:1300-1343). The SQL generator
(`setAutocommitQuery` / `setIsolationLevelQuery`) is a parameter; `none`
models a falsy generator result (`null`, or empty text), on which the source
resolves without querying (`if (!sql) return Promise.resolve();`). -/

/-- Turn an executor outcome for one statement into the settled promise. -/
def runStatement (exec : String → QueryOutcome) (sql : String) :
    Except String Unit :=
  match exec sql with
  | .success => .ok ()
  | .failure e => .error e

/-- `QueryInterface.setAutocommit` (src/lib/query-interface.js:1300-1320):
on a savepoint handle (`transaction.parent` set) it resolves at once; on a
root handle it asks the generator for `setAutocommitQuery(value,
{ parent: transaction.parent })`, resolves when that is falsy, and otherwise
sends the statement. Returns the statements sent and the settled result. -/
def setAutocommit (gen : JsVal → Bool → Option String)
    (exec : String → QueryOutcome) (t : Transaction) (value : JsVal) :
    List String × Except String Unit :=
  if t.parent then
    -- Not possible to set a separate isolation level for savepoints
    ([], .ok ())
  else
    match gen value t.parent with
    | none => ([], .ok ())
    | some sql => ([sql], runStatement exec sql)

/-- `QueryInterface.setIsolationLevel` (src/lib/query-interface.js:1322-1343):
resolves at once when `transaction.parent` is set or `value` is falsy;
otherwise asks the generator for `setIsolationLevelQuery(value,
{ parent: transaction.parent })`, resolves when that is falsy, and otherwise
sends the statement. -/
def setIsolationLevel (gen : JsVal → Bool → Option String)
    (exec : String → QueryOutcome) (t : Transaction) (value : JsVal) :
    List String × Except String Unit :=
  if t.parent || !value.truthy then
    -- Not possible to set a separate isolation level for savepoints
    ([], .ok ())
  else
    match gen value t.parent with
    | none => ([], .ok ())
    | some sql => ([sql], runStatement exec sql)

/-- C5: on a savepoint handle (parent set), `setAutocommit` and
`setIsolationLevel` succeed without sending any statement; on a root handle
(parent absent), whenever the generator produces a statement (for a truthy
isolation-level value), exactly that statement is sent. -/
theorem setAutocommit_setIsolationLevel_root_only
    (genA genI : JsVal → Bool → Option String) (exec : String → QueryOutcome)
    (t : Transaction) (va vi : JsVal) :
    (t.parent = true →
        setAutocommit genA exec t va = ([], .ok ())
          ∧ setIsolationLevel genI exec t vi = ([], .ok ()))
      ∧ (t.parent = false →
        (∀ sql, genA va false = some sql →
            setAutocommit genA exec t va = ([sql], runStatement exec sql))
          ∧ (vi.truthy = true → ∀ sql, genI vi false = some sql →
            setIsolationLevel genI exec t vi
              = ([sql], runStatement exec sql))) := by
  constructor
  · intro hp
    constructor
    · simp [setAutocommit, hp]
    · simp [setIsolationLevel, hp]
  · intro hp
    constructor
    · intro sql hsql
      simp [setAutocommit, hp, hsql]
    · intro hv sql hsql
      simp [setIsolationLevel, hp, hv, hsql]

/-- C5, witness: a savepoint handle is a no-op for both operations, and a
root handle sends the generated statement. -/
theorem setAutocommit_setIsolationLevel_root_only_witness :
    setAutocommit (fun _ _ => some "SET autocommit = 1") (fun _ => .success)
        ⟨true, none⟩ (.bool true) = ([], .ok ())
      ∧ setIsolationLevel (fun _ _ => some "SET TX LEVEL") (fun _ => .success)
        ⟨true, none⟩ (.str "READ COMMITTED") = ([], .ok ())
      ∧ setAutocommit (fun _ _ => some "SET autocommit = 1") (fun _ => .success)
        ⟨false, none⟩ (.bool true) = (["SET autocommit = 1"], .ok ())
      ∧ setIsolationLevel (fun _ _ => some "SET TX LEVEL") (fun _ => .success)
        ⟨false, none⟩ (.str "READ COMMITTED")
          = (["SET TX LEVEL"], .ok ()) := by
  have h₁ := setAutocommit_setIsolationLevel_root_only
    (fun _ _ => some "SET autocommit = 1") (fun _ _ => some "SET TX LEVEL")
    (fun _ => .success) ⟨true, none⟩ (.bool true) (.str "READ COMMITTED")
  have h₂ := setAutocommit_setIsolationLevel_root_only
    (fun _ _ => some "SET autocommit = 1") (fun _ _ => some "SET TX LEVEL")
    (fun _ => .success) ⟨false, none⟩ (.bool true) (.str "READ COMMITTED")
  refine ⟨(h₁.1 rfl).1, (h₁.1 rfl).2, ?_, ?_⟩
  · exact (h₂.2 rfl).1 "SET autocommit = 1" rfl
  · exact (h₂.2 rfl).2 rfl "SET TX LEVEL" rfl

/-! ## Schema introspection: `describeTable` (C4) and `renameColumn` (C7) -/

/-- One column of a `DESCRIBE` result, as `describeTable` resolves it:
`{type, allowNull, defaultValue}`. -/
structure ColumnDesc where
  type : String
  allowNull : Bool
  defaultValue : JsVal
  deriving Repr

/-- The `tableName` argument of `describeTable`: a plain string, or an object
`{tableName, schema}`. -/
inductive TableNameArg where
  | str (s : String)
  | obj (tableName : String) (schema : Option String)
  deriving Repr

/-- The `options` argument of `describeTable`: missing, a schema string, or
an object with optional `schema` / `schemaDelimiter` fields. -/
inductive DescribeOpts where
  | missing
  | str (schema : String)
  | obj (schema : Option String) (schemaDelimiter : Option String)
  deriving Repr

/-- JavaScript string coercion of a `tableName` argument, as in the error
messages `'...' + tableName + '...'`. -/
def TableNameArg.toJsString : TableNameArg → String
  | .str s => s
  | .obj _ _ => "[object Object]"

/-- The effective plain table name after `describeTable`'s argument
normalization (an object argument is replaced by its `tableName` field). -/
def TableNameArg.effectiveName : TableNameArg → String
  | .str s => s
  | .obj t _ => t

/-- The effective schema after `describeTable`'s argument normalization: an
object `tableName` overwrites whatever the options provided. -/
def describeTableSchema : TableNameArg → DescribeOpts → Option String
  | .obj _ s, _ => s
  | .str _, .str s => some s
  | .str _, .obj s _ => s
  | .str _, .missing => none

/-- The `schemaDelimiter` extracted from the options. -/
def describeTableSchemaDelimiter : DescribeOpts → Option String
  | .obj _ d => d
  | _ => none

/-- The SQL text `describeTable` asks the generator
(`describeTableQuery(tableName, schema, schemaDelimiter)`) for. -/
def describeTableSql (gen : String → Option String → Option String → String)
    (tableName : TableNameArg) (opts : DescribeOpts) : String :=
  gen tableName.effectiveName (describeTableSchema tableName opts)
    (describeTableSchemaDelimiter opts)

/-- The rejection message of `describeTable` on an empty result. -/
def noDescriptionMsg (tableName : String) : String :=
  "No description found for \"" ++ tableName ++
    "\" table. Check the table name and schema; remember, they _are_ case sensitive."

/-- `QueryInterface.describeTable` (src/lib/query-interface.js:414-445):
normalizes the `tableName` / `options` arguments, builds the describe query,
runs it, and rejects when the raw result is empty (`_.isEmpty(data)`),
resolving with the column mapping otherwise. `gen` is
`QueryGenerator.describeTableQuery`, `exec` the executor returning the raw
column mapping for a query text. -/
def describeTable (gen : String → Option String → Option String → String)
    (exec : String → List (String × ColumnDesc))
    (tableName : TableNameArg) (opts : DescribeOpts) :
    Except String (List (String × ColumnDesc)) :=
  let sql := describeTableSql gen tableName opts
  let data := exec sql
  -- If no data is returned from the query, then the table name may be wrong.
  if data.isEmpty then
    .error (noDescriptionMsg tableName.effectiveName)
  else
    .ok data

/-- C4: `describeTable` rejects with the not-found message exactly when the
raw result is empty, and resolves with the raw column mapping exactly when it
is non-empty — an empty raw result is never an empty success. -/
theorem describeTable_empty_is_notFound
    (gen : String → Option String → Option String → String)
    (exec : String → List (String × ColumnDesc))
    (tableName : TableNameArg) (opts : DescribeOpts) :
    (describeTable gen exec tableName opts
        = .error (noDescriptionMsg tableName.effectiveName)
      ↔ exec (describeTableSql gen tableName opts) = [])
    ∧ (describeTable gen exec tableName opts
        = .ok (exec (describeTableSql gen tableName opts))
      ↔ exec (describeTableSql gen tableName opts) ≠ []) := by
  unfold describeTable
  cases h : exec (describeTableSql gen tableName opts) <;> simp [h]

/-- The new-column definition `renameColumn` builds (its
`_options[attrNameAfter]`): the `attribute` key (here `attributeName`),
introspected type, nullability and default, with `defaultValue = none`
modelling the deleted key. -/
structure NewAttr where
  attributeName : String
  type : String
  allowNull : Bool
  defaultValue : Option JsVal
  deriving Repr

/-- The definition-building step of `QueryInterface.renameColumn`
(src/lib/query-interface.js:551-563): copy type, nullability and default of
the introspected column, then delete the default when the column is not-null
and its default is `null`. -/
def renameColumnBuildAttr (attrNameAfter : String) (data : ColumnDesc) :
    NewAttr :=
  let a : NewAttr :=
    ⟨attrNameAfter, data.type, data.allowNull, some data.defaultValue⟩
  -- fix: a not-null column cannot have null as default value
  if data.defaultValue == JsVal.null && !data.allowNull then
    { a with defaultValue := none }
  else
    a

/-- `QueryInterface.renameColumn` (src/lib/query-interface.js:542-577), up to
the new-column definition handed to the SQL generator: describe the table,
fail when the source column is absent, and otherwise build the new column's
definition. (On sqlite the built definition is handed to the dialect
workaround instead of `renameColumnQuery`; the built definition itself is
dialect-independent.) -/
def renameColumn (gen : String → Option String → Option String → String)
    (exec : String → List (String × ColumnDesc))
    (tableName : TableNameArg) (attrNameBefore attrNameAfter : String)
    (opts : DescribeOpts) : Except String NewAttr :=
  match describeTable gen exec tableName opts with
  | .error e => .error e
  | .ok data =>
    match data.lookup attrNameBefore with
    | none =>
        .error ("Table " ++ tableName.toJsString ++
          " doesn't have the column " ++ attrNameBefore)
    | some d => .ok (renameColumnBuildAttr attrNameAfter d)

/-- `JsVal.beq v .null` decides equality with `null`. -/
theorem JsVal.beq_null_iff (v : JsVal) :
    (v == JsVal.null) = true ↔ v = JsVal.null := by
  cases v <;> simp [BEq.beq, JsVal.beq]

/-- The fields of the definition built by `renameColumnBuildAttr`. -/
theorem renameColumnBuildAttr_fields (attrNameAfter : String)
    (d : ColumnDesc) :
    renameColumnBuildAttr attrNameAfter d
      = ⟨attrNameAfter, d.type, d.allowNull,
          if d.defaultValue == JsVal.null && !d.allowNull then none
          else some d.defaultValue⟩ := by
  unfold renameColumnBuildAttr
  cases hb : d.defaultValue == JsVal.null && !d.allowNull <;> simp [hb]

/-- C7: when the introspected table has the source column, `renameColumn`
builds the new column definition with exactly the introspected type,
nullability and default value, except that a `null` default on a not-null
column is omitted rather than copied. -/
theorem renameColumn_preserves_definition
    (gen : String → Option String → Option String → String)
    (exec : String → List (String × ColumnDesc))
    (tableName : TableNameArg) (attrNameBefore attrNameAfter : String)
    (opts : DescribeOpts) (d : ColumnDesc)
    (h : (exec (describeTableSql gen tableName opts)).lookup attrNameBefore
      = some d) :
    ∃ a : NewAttr,
      renameColumn gen exec tableName attrNameBefore attrNameAfter opts = .ok a
        ∧ a.attributeName = attrNameAfter
        ∧ a.type = d.type
        ∧ a.allowNull = d.allowNull
        ∧ (d.defaultValue = JsVal.null → d.allowNull = false →
            a.defaultValue = none)
        ∧ (d.defaultValue ≠ JsVal.null ∨ d.allowNull = true →
            a.defaultValue = some d.defaultValue) := by
  have hne : exec (describeTableSql gen tableName opts) ≠ [] := by
    intro hnil
    rw [hnil] at h
    simp [List.lookup] at h
  have hok : describeTable gen exec tableName opts
      = .ok (exec (describeTableSql gen tableName opts)) :=
    (describeTable_empty_is_notFound gen exec tableName opts).2.mpr hne
  refine ⟨renameColumnBuildAttr attrNameAfter d, ?_, ?_, ?_, ?_, ?_, ?_⟩
  · unfold renameColumn
    rw [hok]
    simp only [h]
  · rw [renameColumnBuildAttr_fields]
  · rw [renameColumnBuildAttr_fields]
  · rw [renameColumnBuildAttr_fields]
  · intro hnull hnn
    rw [renameColumnBuildAttr_fields]
    simp [(JsVal.beq_null_iff d.defaultValue).mpr hnull, hnn]
  · intro hor
    rw [renameColumnBuildAttr_fields]
    rcases hor with hnull | hnn
    · have hb : (d.defaultValue == JsVal.null) = false := by
        cases hb' : d.defaultValue == JsVal.null
        · rfl
        · exact absurd ((JsVal.beq_null_iff d.defaultValue).mp hb') hnull
      simp [hb]
    · simp [hnn]

/-- C7, witness: renaming a not-null `INTEGER` column whose introspected
default is `null` drops the default; its type and nullability are copied. -/
theorem renameColumn_preserves_definition_witness :
    ∃ a : NewAttr,
      renameColumn (fun _ _ _ => "DESCRIBE people")
          (fun _ => [("age", ⟨"INTEGER", false, JsVal.null⟩)])
          (.str "people") "age" "years" .missing = .ok a
        ∧ a.attributeName = "years"
        ∧ a.type = "INTEGER"
        ∧ a.allowNull = false
        ∧ a.defaultValue = none := by
  obtain ⟨a, ha, hattr, htype, hnull, hdef, -⟩ :=
    renameColumn_preserves_definition (fun _ _ _ => "DESCRIBE people")
      (fun _ => [("age", ⟨"INTEGER", false, JsVal.null⟩)])
      (.str "people") "age" "years" .missing ⟨"INTEGER", false, JsVal.null⟩ rfl
  refine ⟨a, ha, hattr, htype, ?_, hdef rfl ?_⟩
  · rw [hnull]
  · rfl

/-! ## `addConstraint` argument validation (C8) -/

/-- The options object of `addConstraint`, to the granularity the dispatcher
reads it: the `type` option (any JS value; absent is `undef`) and the
`fields` list it falls back to when the `attributes` argument is omitted. -/
structure ConstraintOptions where
  type : JsVal
  fields : List String
  deriving Repr

/-- The `(attributes, options, rawTablename)` argument shapes of
`addConstraint` after the leading shuffle
(src/lib/query-interface.js:775-779): when the `attributes` argument is not
an array, the second argument is the options object (whose `fields` becomes
`attributes`) and the third is the raw table name. -/
inductive AddConstraintArgs where
  | withAttributes (attributes : List String) (options : ConstraintOptions)
      (rawTablename : Option String)
  | attributesOmitted (options : ConstraintOptions)
      (rawTablename : Option String)
  deriving Repr

/-- The effective options object of an `addConstraint` call. -/
def AddConstraintArgs.options : AddConstraintArgs → ConstraintOptions
  | .withAttributes _ o _ => o
  | .attributesOmitted o _ => o

/-- The effective attributes of an `addConstraint` call. -/
def AddConstraintArgs.attributes : AddConstraintArgs → List String
  | .withAttributes a _ _ => a
  | .attributesOmitted o _ => o.fields

/-- The effective raw table name of an `addConstraint` call (`none` models a
falsy argument, replaced by `tableName` for backwards compat). -/
def AddConstraintArgs.rawTablename : AddConstraintArgs → Option String
  | .withAttributes _ _ r => r
  | .attributesOmitted _ r => r

/-- `QueryInterface.addConstraint` (src/lib/query-interface.js:774-799):
normalize the arguments, throw synchronously when `options.type` is falsy,
and otherwise generate and send the constraint statement (on sqlite, hand the
options to the dialect workaround, whose statements `sqliteDelegate` models).
Returns the settled result together with every SQL text generated. -/
def addConstraint (dialect : String)
    (gen : String → ConstraintOptions → String → String)
    (sqliteDelegate : String → ConstraintOptions → String → List String)
    (exec : String → QueryOutcome)
    (tableName : String) (args : AddConstraintArgs) :
    Except String Unit × List String :=
  let options := args.options
  if !options.type.truthy then
    (.error "Constraint type must be specified through options.type", [])
  else
    let rawTablename := args.rawTablename.getD tableName
    let options' := { options with fields := args.attributes }
    if dialect == "sqlite" then
      (.ok (), sqliteDelegate tableName options' rawTablename)
    else
      let sql := gen tableName options' rawTablename
      (runStatement exec sql, [sql])

/-- C8: on every dialect and for every argument shape whose effective options
lack a (truthy) `type`, `addConstraint` fails synchronously with the
invalid-argument error and no SQL text is generated or sent. -/
theorem addConstraint_requires_type (dialect : String)
    (gen : String → ConstraintOptions → String → String)
    (sqliteDelegate : String → ConstraintOptions → String → List String)
    (exec : String → QueryOutcome) (tableName : String)
    (args : AddConstraintArgs)
    (h : args.options.type.truthy = false) :
    addConstraint dialect gen sqliteDelegate exec tableName args
      = (.error "Constraint type must be specified through options.type", []) := by
  unfold addConstraint
  simp [h]

/-- C8, witness: omitting `options.type` (here `undef`) on mysql with the
attributes-omitted calling shape rejects before generating any SQL. -/
theorem addConstraint_requires_type_witness :
    addConstraint "mysql" (fun _ _ _ => "ALTER TABLE")
      (fun _ _ _ => ["ALTER TABLE"]) (fun _ => .success) "Users"
      (.attributesOmitted ⟨.undefined, ["email"]⟩ none)
      = (.error "Constraint type must be specified through options.type", []) :=
  addConstraint_requires_type "mysql" (fun _ _ _ => "ALTER TABLE")
    (fun _ _ _ => ["ALTER TABLE"]) (fun _ => .success) "Users"
    (.attributesOmitted ⟨.undefined, ["email"]⟩ none) rfl

/-! ## Upsert result normalization (C3) -/

/-- The result-mapping step of `QueryInterface.upsert`
(src/lib/query-interface.js:901-920): the `switch` on the dialect that turns
the raw executor result of the upsert query into the `[created, primaryKey]`
pair resolved to the caller. `primaryKeyField` is `model.primaryKeyField`. -/
def upsertMapResult (dialect : String) (primaryKeyField : String)
    (result : JsVal) : JsVal × JsVal :=
  match dialect with
  | "postgres" => (result.get "created", result.get "primary_key")
  | "mssql" =>
      (.bool (result.get "$action" == JsVal.str "INSERT"),
        result.get primaryKeyField)
  -- MySQL returns 1 for inserted, 2 for updated
  | "mysql" => (.bool (result == JsVal.num 1), .undefined)
  | _ => (result, .undefined)

/-- C3, counterexample: on the fall-through dialects (here sqlite), the raw
executor result is surfaced directly as the first element of the resolved
pair — for a raw result of `2` the caller receives `2`, not a boolean — so
the mapping to a canonical `(wasInserted : bool, _)` tuple does not happen on
every dialect. -/
theorem upsertMapResult_sqlite_surfaces_raw :
    upsertMapResult "sqlite" "id" (.num 2) = (.num 2, .undefined)
      ∧ (upsertMapResult "sqlite" "id" (.num 2)).1.isBool = false := by
  exact ⟨rfl, rfl⟩

/-- C3, amended: mssql and mysql map the raw result to a boolean first
element — mysql maps raw `1` to `true` and raw `2` to `false` — and postgres
projects the `created` / `primary_key` status columns of the returned row;
but every other dialect resolves the raw executor result itself as the first
element, unmapped. -/
theorem upsertMapResult_per_dialect (pk : String) (result : JsVal) :
    upsertMapResult "mysql" pk (.num 1) = (.bool true, .undefined)
      ∧ upsertMapResult "mysql" pk (.num 2) = (.bool false, .undefined)
      ∧ (upsertMapResult "mysql" pk result).1.isBool = true
      ∧ (upsertMapResult "mssql" pk result).1.isBool = true
      ∧ upsertMapResult "postgres" pk result
          = (result.get "created", result.get "primary_key")
      ∧ (∀ d, d ≠ "postgres" → d ≠ "mssql" → d ≠ "mysql" →
          upsertMapResult d pk result = (result, .undefined)) := by
  refine ⟨rfl, rfl, rfl, rfl, rfl, ?_⟩
  intro d h₁ h₂ h₃
  unfold upsertMapResult
  split
  · exact absurd rfl h₁
  · exact absurd rfl h₂
  · exact absurd rfl h₃
  · rfl

/-- C3, witness for the amended theorem: sqlite is a fall-through dialect, so
a raw result of `2` is resolved unmapped. -/
theorem upsertMapResult_per_dialect_witness :
    upsertMapResult "sqlite" "id" (.num 7) = (.num 7, .undefined) :=
  (upsertMapResult_per_dialect "id" (.num 7)).2.2.2.2.2 "sqlite"
    (by decide) (by decide) (by decide)

/-! ## `bulkDelete` and the un-cloned where clause (C9)

Reference identity of mutable JS objects is modelled by a numeric tag:
`cloneDeep` returns a structurally equal object that is never
reference-equal to its input, realised by bumping the tag. -/

/-- A JS object with reference identity: `ref` is the reference tag, `fields`
the own properties. -/
structure JsObj where
  ref : Nat
  fields : List (String × JsVal)
  deriving Repr

/-- `Utils.cloneDeep`: a deep copy — structurally equal, fresh reference. -/
def cloneDeep (o : JsObj) : JsObj :=
  { o with ref := o.ref + 1 }

/-- In `bulkDelete` (src/lib/query-interface.js:1039) the guard reads
`typeof identifier`, but no variable named `identifier` is declared in the
function or module scope, so the `typeof` evaluates to `"undefined"`. -/
def typeofIdentifierInBulkDelete : String := "undefined"

/-- What `bulkDelete` sends, abstracted to the argument that matters: either
the truncate statement, or a delete whose `deleteQuery` receives the given
where object. -/
inductive BulkDeleteAction where
  | truncate
  | delete (whereArg : JsObj)
  deriving Repr

/-- `QueryInterface.bulkDelete` (src/lib/query-interface.js:1028-1045) on the
path that matters to the where clause: truncate when requested; otherwise
clone the where clause only under the guard `typeof identifier === 'object'`
and hand the result to `deleteQuery`. -/
def bulkDelete (whereArg : JsObj) (truncate : Bool) : BulkDeleteAction :=
  if truncate then
    .truncate
  else
    let w := if typeofIdentifierInBulkDelete == "object" then cloneDeep whereArg
      else whereArg
    .delete w

/-- C9 (code bug): because the clone guard tests the undeclared name
`identifier`, the where clause is never cloned — `deleteQuery` always
receives the caller's own where object (for every input, and concretely for
`{id: 1}`), while a clone is never reference-equal to its input. -/
theorem bulkDelete_where_never_cloned :
    (∀ w : JsObj, bulkDelete w false = .delete w)
      ∧ (∀ w : JsObj, cloneDeep w ≠ w)
      ∧ bulkDelete ⟨0, [("id", .num 1)]⟩ false
          = .delete ⟨0, [("id", .num 1)]⟩ := by
  refine ⟨fun w => rfl, ?_, rfl⟩
  intro w h
  have hr := congrArg JsObj.ref h
  simp [cloneDeep] at hr

/-! ## JS object property assignment

`o[k] = v` on a JS object modelled as an association list: overwrite the
existing binding when the key is present, append otherwise. Shared by the
result-map construction of `getForeignKeysForTables` and the per-index
where-object construction of `upsert`. -/

/-- JS property assignment `m[k] = v` on an association list. -/
def jsObjAssign {β : Type} (m : List (String × β)) (k : String) (v : β) :
    List (String × β) :=
  if m.any (fun p => p.1 == k) then
    m.map (fun p => if p.1 == k then (k, v) else p)
  else
    m ++ [(k, v)]

/-- Assignment of a fresh key appends the binding. -/
theorem jsObjAssign_of_fresh {β : Type} (m : List (String × β)) (k : String)
    (v : β) (h : ∀ q ∈ m, q.1 ≠ k) : jsObjAssign m k v = m ++ [(k, v)] := by
  unfold jsObjAssign
  have : m.any (fun p => p.1 == k) = false := by
    rw [List.any_eq_false]
    intro q hq
    simp [h q hq]
  rw [this]
  simp

/-- Folding fresh assignments with pairwise-distinct keys over an
association list appends the bindings in order. -/
theorem foldl_jsObjAssign {α β : Type} (key : α → String) (val : α → β)
    (l : List α) (acc : List (String × β))
    (hdisj : ∀ a ∈ l, ∀ q ∈ acc, key a ≠ q.1)
    (hnodup : (l.map key).Nodup) :
    l.foldl (fun m a => jsObjAssign m (key a) (val a)) acc
      = acc ++ l.map (fun a => (key a, val a)) := by
  induction l generalizing acc with
  | nil => simp
  | cons a l ih =>
    have hcons : key a ∉ l.map key ∧ (l.map key).Nodup := by
      rw [List.map_cons] at hnodup
      exact List.nodup_cons.1 hnodup
    have hfresh : jsObjAssign acc (key a) (val a) = acc ++ [(key a, val a)] :=
      jsObjAssign_of_fresh acc (key a) (val a)
        (fun q hq => (hdisj a (List.mem_cons_self a l) q hq).symm)
    rw [List.foldl_cons, hfresh,
      ih (acc ++ [(key a, val a)])
        (by
          intro b hb q hq
          rcases List.mem_append.1 hq with hq' | hq'
          · exact hdisj b (List.mem_cons_of_mem a hb) q hq'
          · have hq'' : q = (key a, val a) := by simpa using hq'
            subst hq''
            intro hcontra
            simp only [] at hcontra
            exact hcons.1 (hcontra ▸ List.mem_map_of_mem key hb))
        hcons.2]
    simp

/-! ## `getForeignKeysForTables` (C10) -/

/-- A table-name element of the `tableNames` argument: a plain string, or a
schema-qualified object `{schema, tableName}`. -/
inductive TName where
  | plain (s : String)
  | withSchema (schema tableName : String)
  deriving DecidableEq, Repr

/-- The key under which a table's foreign keys are reported:
`tableName.schema + '.' + tableName.tableName` for an object, the string
itself otherwise. -/
def TName.normalized : TName → String
  | .plain s => s
  | .withSchema schema tableName => schema ++ "." ++ tableName

/-- The raw executor result of one per-table foreign-keys query: an array of
row objects, a single (plain) row object, or a primitive (e.g. `null` /
`undefined`). -/
inductive FkResult where
  | arr (rows : List (List (String × JsVal)))
  | objRow (row : List (String × JsVal))
  | prim (v : JsVal)
  deriving Repr

/-- The per-table entry before the truthiness filter:
`_.isArray(results[i]) ? results[i].map(r => r.constraint_name)
: [results[i] && results[i].constraint_name]`. A single row object is truthy,
so `&&` yields its `constraint_name`; a falsy primitive short-circuits to
itself; a truthy primitive has no `constraint_name` property. -/
def fkConstraintNames : FkResult → List JsVal
  | .arr rows => rows.map (fun r => (JsVal.obj r).get "constraint_name")
  | .objRow r => [(JsVal.obj r).get "constraint_name"]
  | .prim v => [if v.truthy then JsVal.undefined else v]

/-- `QueryInterface.getForeignKeysForTables` (src/lib/query-interface.js:
629-655): an empty `tableNames` resolves with an empty mapping at once;
otherwise one foreign-keys query runs per table name and the result object
maps each normalized table name to its truthy constraint names. Returns the
list of table names queried together with the result mapping. -/
def getForeignKeysForTables (query : TName → FkResult)
    (tableNames : List TName) : List TName × List (String × List JsVal) :=
  if tableNames.length == 0 then
    ([], [])
  else
    let results := tableNames.map query
    let resultMap := (tableNames.zip results).foldl
      (fun acc p =>
        jsObjAssign acc p.1.normalized
          ((fkConstraintNames p.2).filter JsVal.truthy))
      []
    (tableNames, resultMap)

/-- C10: with no table names, `getForeignKeysForTables` resolves with an
empty mapping and queries nothing; with table names whose normalized keys are
pairwise distinct, it queries each table once and resolves with exactly one
entry per supplied table name (schema-qualified names keyed
`schema.tableName`), holding only the truthy constraint names returned for
that table. -/
theorem getForeignKeysForTables_shape (query : TName → FkResult)
    (tableNames : List TName)
    (hnodup : (tableNames.map TName.normalized).Nodup) :
    getForeignKeysForTables query [] = ([], [])
      ∧ getForeignKeysForTables query tableNames
        = (tableNames,
            tableNames.map (fun tn =>
              (tn.normalized,
                (fkConstraintNames (query tn)).filter JsVal.truthy))) := by
  refine ⟨rfl, ?_⟩
  cases tableNames with
  | nil => rfl
  | cons t ts =>
    unfold getForeignKeysForTables
    have hzip : (t :: ts).zip ((t :: ts).map query)
        = (t :: ts).map (fun tn => (tn, query tn)) := by
      simpa using List.zip_map' id query (t :: ts)
    rw [if_neg (by simp)]
    dsimp only
    rw [hzip, List.foldl_map]
    rw [foldl_jsObjAssign (fun tn => tn.normalized)
      (fun tn => (fkConstraintNames (query tn)).filter JsVal.truthy)
      (t :: ts) [] (by intro a _ q hq; simp at hq) (by simpa using hnodup)]
    simp

/-- C10, witness: one plain and one schema-qualified table name, the first
with an array result containing a falsy constraint name, the second with a
single-row result. -/
theorem getForeignKeysForTables_shape_witness :
    getForeignKeysForTables
        (fun tn =>
          match tn with
          | .plain _ =>
              .arr [[("constraint_name", .str "fk_users")],
                [("constraint_name", .null)]]
          | .withSchema _ _ => .objRow [("constraint_name", .str "fk_posts")])
        [.plain "Users", .withSchema "public" "Posts"]
      = ([.plain "Users", .withSchema "public" "Posts"],
          [("Users", [.str "fk_users"]),
            ("public.Posts", [.str "fk_posts"])]) := by
  have h := getForeignKeysForTables_shape
    (fun tn =>
      match tn with
      | .plain _ =>
          .arr [[("constraint_name", .str "fk_users")],
            [("constraint_name", .null)]]
      | .withSchema _ _ => .objRow [("constraint_name", .str "fk_posts")])
    [.plain "Users", .withSchema "public" "Posts"] (by decide)
  rw [h.2]
  rfl

/-! ## Upsert where-clause construction (C2)

`QueryInterface.upsert` (src/lib/query-interface.js:855-895) builds the
`where` it hands to `upsertQuery`: the caller predicate (when non-empty)
plus one equality object per declared unique key / unique index fully
covered by the insert values, all wrapped in `{ [Op.or]: wheres }`. -/

/-- An entry of a model's `uniqueKeys` map, as read by `upsert`: only its
`fields` matter. -/
structure UniqueKey where
  fields : List String
  deriving Repr

/-- An element of an index's `fields`: a plain string, or an object carrying
an `attribute` property (here `attrName`). -/
inductive IndexField where
  | plainStr (s : String)
  | fieldObj (attrName : String)
  deriving Repr

/-- The sanitising map of `upsert` over index fields: an object field is
replaced by its `attribute` property. -/
def IndexField.sanitize : IndexField → String
  | .plainStr s => s
  | .fieldObj a => a

/-- An entry of `model._indexes`, as read by `upsert`. -/
structure ModelIndex where
  fields : List IndexField
  unique : Bool
  deriving Repr

/-- The model handed to `upsert`: its `uniqueKeys` and its `_indexes`
(here `indexes`). -/
structure UpsertModel where
  uniqueKeys : List UniqueKey
  indexes : List ModelIndex
  deriving Repr

/-- The combined `indexes` list `upsert` builds: the fields of every declared
unique key, then the sanitized fields of every unique index. -/
def upsertDeclaredIndexSets (model : UpsertModel) : List (List String) :=
  model.uniqueKeys.map (·.fields)
    ++ (model.indexes.filter (·.unique)).map
        (fun v => v.fields.map IndexField.sanitize)

/-- lodash `_.uniq` order-preserving semantics: keep the first occurrence of
every value. -/
def dedupFirst : List String → List String
  | [] => []
  | x :: xs => x :: dedupFirst (xs.filter (fun y => !(y == x)))
termination_by l => l.length
decreasing_by
  simp_wf
  exact Nat.lt_succ_of_le (List.length_filter_le _ _)

/-- lodash `_.intersection(xs, ys)`: the unique values of `xs` that also
occur in `ys`, in `xs` order. -/
def jsIntersection (xs ys : List String) : List String :=
  (dedupFirst xs).filter (fun x => ys.contains x)

/-- On a duplicate-free list, `dedupFirst` is the identity. -/
theorem dedupFirst_of_nodup (l : List String) (h : l.Nodup) :
    dedupFirst l = l := by
  induction l with
  | nil => rw [dedupFirst]
  | cons x xs ih =>
    rw [dedupFirst]
    have hx : x ∉ xs := (List.nodup_cons.1 h).1
    have hfilter : xs.filter (fun y => !(y == x)) = xs := by
      apply List.filter_eq_self.2
      intro y hy
      have : y ≠ x := fun he => hx (he ▸ hy)
      simp [this]
    rw [hfilter, ih (List.nodup_cons.1 h).2]

/-- Boolean equality from an iff of truth. -/
theorem bool_eq_of_iff {a b : Bool} (h : a = true ↔ b = true) : a = b := by
  cases a <;> cases b <;> simp_all

/-- The coverage test of `upsert`, `_.intersection(attributes, index).length
=== index.length`, holds exactly when every field of the (duplicate-free)
index occurs among the (duplicate-free) attributes. -/
theorem jsIntersection_length_eq_iff (attrs idx : List String)
    (ha : attrs.Nodup) (hi : idx.Nodup) :
    ((jsIntersection attrs idx).length == idx.length) = true
      ↔ ∀ f ∈ idx, f ∈ attrs := by
  rw [beq_iff_eq, jsIntersection, dedupFirst_of_nodup attrs ha]
  have hmemF : ∀ x, x ∈ attrs.filter (fun x => idx.contains x)
      ↔ x ∈ attrs ∧ x ∈ idx := by
    intro x
    rw [List.mem_filter]
    simp
  have hFnodup : (attrs.filter (fun x => idx.contains x)).Nodup :=
    ha.filter _
  constructor
  · intro hlen f hf
    by_contra hfa
    have hsub : attrs.filter (fun x => idx.contains x) ⊆ idx.erase f := by
      intro x hx
      have hx' := (hmemF x).1 hx
      have hxf : x ≠ f := fun he => hfa (he ▸ hx'.1)
      rw [List.mem_erase_of_ne hxf]
      exact hx'.2
    have hle : (attrs.filter (fun x => idx.contains x)).length
        ≤ (idx.erase f).length :=
      (List.subperm_of_subset hFnodup hsub).length_le
    rw [List.length_erase_of_mem hf] at hle
    have hpos : 0 < idx.length := List.length_pos_of_mem hf
    omega
  · intro hcov
    have hperm : List.Perm (attrs.filter (fun x => idx.contains x)) idx := by
      rw [List.perm_ext_iff_of_nodup hFnodup hi]
      intro x
      rw [hmemF x]
      exact ⟨fun hx => hx.2, fun hx => ⟨hcov x hx, hx⟩⟩
    exact hperm.length_eq

/-- One operand of the disjunction `upsert` builds: the caller-supplied
predicate, or a field-equality object built from the insert values. -/
inductive UpsertWhereEntry where
  | callerPred (w : JsVal)
  | uniqueEq (m : List (String × JsVal))
  deriving Repr

/-- The final where argument of `upsertQuery`: `{ [Op.or]: wheres }`. -/
structure UpsertWhereArg where
  orOperands : List UpsertWhereEntry
  deriving Repr

/-- The `wheres` list `upsert` accumulates
(src/lib/query-interface.js:856-893): the caller `where` when
`Utils.isWhereEmpty` rejects it (the predicate `isWhereEmpty` models that
utility, an external collaborator of this file), then, for every declared
unique key / unique index whose fields all intersect the insert-value keys,
the object assigning each index field its insert value. -/
def upsertBuiltWheres (isWhereEmpty : JsVal → Bool)
    (insertValues : List (String × JsVal)) (whereArg : JsVal)
    (model : UpsertModel) : List UpsertWhereEntry :=
  let attributes := insertValues.map Prod.fst
  let wheresInit : List UpsertWhereEntry :=
    if isWhereEmpty whereArg then [] else [.callerPred whereArg]
  let indexes := upsertDeclaredIndexSets model
  let matched := indexes.filter
    (fun idx => (jsIntersection attributes idx).length == idx.length)
  wheresInit ++ matched.map (fun idx =>
    .uniqueEq (idx.foldl
      (fun o f => jsObjAssign o f ((JsVal.obj insertValues).get f)) []))

/-- The where argument `upsert` passes to `upsertQuery`:
`where = { [Op.or]: wheres }` (src/lib/query-interface.js:895). -/
def upsertWhereArg (isWhereEmpty : JsVal → Bool)
    (insertValues : List (String × JsVal)) (whereArg : JsVal)
    (model : UpsertModel) : UpsertWhereArg :=
  ⟨upsertBuiltWheres isWhereEmpty insertValues whereArg model⟩

/-- The where clause C2 describes, built from the claim's words: the caller
predicate when non-empty, plus one equality predicate per declared unique key
or unique index whose fields are all present among the insert-value keys,
each pairing the index fields with their insert values. -/
def upsertSpecWheres (isWhereEmpty : JsVal → Bool)
    (insertValues : List (String × JsVal)) (whereArg : JsVal)
    (model : UpsertModel) : List UpsertWhereEntry :=
  (if isWhereEmpty whereArg then [] else [.callerPred whereArg])
    ++ ((upsertDeclaredIndexSets model).filter
          (fun idx => idx.all
            (fun f => (insertValues.map Prod.fst).contains f))).map
        (fun idx =>
          .uniqueEq (idx.map (fun f => (f, (JsVal.obj insertValues).get f))))

/-- C2: for duplicate-free insert-value keys and duplicate-free declared
unique field sets, the disjunction `upsert` passes to SQL generation contains
exactly the caller predicate (when non-empty) followed by one equality
predicate per declared unique key or unique index whose fields are all
present among the insert-value keys, built from the insert values. -/
theorem upsert_where_is_spec_disjunction (isWhereEmpty : JsVal → Bool)
    (insertValues : List (String × JsVal)) (whereArg : JsVal)
    (model : UpsertModel)
    (hkeys : (insertValues.map Prod.fst).Nodup)
    (hidx : ∀ idx ∈ upsertDeclaredIndexSets model, idx.Nodup) :
    (upsertWhereArg isWhereEmpty insertValues whereArg model).orOperands
      = upsertSpecWheres isWhereEmpty insertValues whereArg model := by
  unfold upsertWhereArg upsertBuiltWheres upsertSpecWheres
  dsimp only
  have hfilter : (upsertDeclaredIndexSets model).filter
        (fun idx =>
          (jsIntersection (insertValues.map Prod.fst) idx).length
            == idx.length)
      = (upsertDeclaredIndexSets model).filter
        (fun idx => idx.all
          (fun f => (insertValues.map Prod.fst).contains f)) := by
    apply List.filter_congr
    intro idx hin
    apply bool_eq_of_iff
    rw [jsIntersection_length_eq_iff _ _ hkeys (hidx idx hin),
      List.all_eq_true]
    constructor
    · intro h f hf
      simpa using h f hf
    · intro h f hf
      simpa using h f hf
  rw [hfilter]
  congr 1
  apply List.map_congr_left
  intro idx hin
  have hidx' : idx.Nodup := hidx idx (List.mem_of_mem_filter hin)
  congr 1
  have := foldl_jsObjAssign (fun f => f)
    (fun f => (JsVal.obj insertValues).get f) idx []
    (by intro a _ q hq; simp at hq) (by simpa using hidx')
  simpa using this

/-- C2, witness: a model `Users{id (unique key), email (unique index)}` with
insert values supplying `id` and `email` and a non-empty caller predicate:
the disjunction is the caller predicate plus one equality predicate per
covered unique field set. -/
theorem upsert_where_is_spec_disjunction_witness :
    (upsertWhereArg (fun w => !w.truthy)
        [("id", .num 1), ("email", .str "a@x.com")]
        (.obj [("email", .str "a@x.com")])
        ⟨[⟨["id"]⟩], [⟨[.plainStr "email"], true⟩, ⟨[.plainStr "name"], false⟩]⟩).orOperands
      = [.callerPred (.obj [("email", .str "a@x.com")]),
          .uniqueEq [("id", .num 1)],
          .uniqueEq [("email", .str "a@x.com")]] := by
  rw [upsert_where_is_spec_disjunction (fun w => !w.truthy)
    [("id", .num 1), ("email", .str "a@x.com")]
    (.obj [("email", .str "a@x.com")])
    ⟨[⟨["id"]⟩], [⟨[.plainStr "email"], true⟩, ⟨[.plainStr "name"], false⟩]⟩
    (by decide) (by decide)]
  rfl

/-! ## `dropAllTables` on sqlite (C6)

src/lib/query-interface.js:261-273: query the `foreign_keys` pragma; when
enforcement is enabled, turn it off, drop the tables, then turn it back on —
each step a `.then` continuation, so a rejection skips the remaining steps. -/

/-- The statements the sqlite branch of `dropAllTables` can issue. -/
inductive SqliteStmt where
  | pragmaForeignKeys
  | pragmaOff
  | pragmaOn
  | dropTable (name : String)
  deriving DecidableEq, Repr

/-- The inner `dropAllTables` helper (src/lib/query-interface.js:254-259) on
sqlite's plain-string table names: `Promise.each` over the table names,
dropping every table not in `skip` strictly in order and aborting the
remaining drops on the first failure. -/
def dropTablesEach (exec : SqliteStmt → QueryOutcome) (skip : List String) :
    List String → List SqliteStmt × Except String Unit
  | [] => ([], .ok ())
  | t :: rest =>
    if skip.contains t then
      dropTablesEach exec skip rest
    else
      match exec (.dropTable t) with
      | .failure e => ([.dropTable t], .error e)
      | .success =>
        let (tr, res) := dropTablesEach exec skip rest
        (.dropTable t :: tr, res)

/-- The sqlite branch of `QueryInterface.dropAllTables`
(src/lib/query-interface.js:261-273): query `PRAGMA foreign_keys;`; when its
`foreign_keys` column is `1`, send `PRAGMA foreign_keys = OFF`, drop the
tables, and send `PRAGMA foreign_keys = ON` — the promise chain running each
step only after the previous one fulfilled; otherwise just drop the tables.
`pragmaResult` is the row the pragma query resolves with, `tables` the
`showAllTables` result. Returns the statements issued in order and the
settled outcome. -/
def dropAllTablesSqlite (exec : SqliteStmt → QueryOutcome)
    (pragmaResult : JsVal) (skip tables : List String) :
    List SqliteStmt × Except String Unit :=
  match exec .pragmaForeignKeys with
  | .failure e => ([.pragmaForeignKeys], .error e)
  | .success =>
    let foreignKeysAreEnabled := pragmaResult.get "foreign_keys" == JsVal.num 1
    if foreignKeysAreEnabled then
      match exec .pragmaOff with
      | .failure e => ([.pragmaForeignKeys, .pragmaOff], .error e)
      | .success =>
        let (tr, res) := dropTablesEach exec skip tables
        match res with
        | .error e => ([.pragmaForeignKeys, .pragmaOff] ++ tr, .error e)
        | .ok () =>
          match exec .pragmaOn with
          | .failure e =>
              ([.pragmaForeignKeys, .pragmaOff] ++ tr ++ [.pragmaOn], .error e)
          | .success =>
              ([.pragmaForeignKeys, .pragmaOff] ++ tr ++ [.pragmaOn], .ok ())
    else
      let (tr, res) := dropTablesEach exec skip tables
      (.pragmaForeignKeys :: tr, res)

/-- C6, counterexample: enforcement is enabled (`foreign_keys = 1`), the
pragma statements succeed, and dropping table `a` fails. The call then issues
only the pragma query, the OFF statement and the failing drop — the ON
statement is never sent, so enforcement is not re-enabled when an
intermediate drop fails, and the call rejects. -/
theorem dropAllTablesSqlite_failure_skips_reenable :
    dropAllTablesSqlite
        (fun s =>
          match s with
          | .dropTable "a" => .failure "FOREIGN KEY constraint failed"
          | _ => .success)
        (.obj [("foreign_keys", .num 1)]) [] ["a", "b"]
      = ([.pragmaForeignKeys, .pragmaOff, .dropTable "a"],
          .error "FOREIGN KEY constraint failed")
      ∧ SqliteStmt.pragmaOn
        ∉ (dropAllTablesSqlite
            (fun s =>
              match s with
              | .dropTable "a" => .failure "FOREIGN KEY constraint failed"
              | _ => .success)
            (.obj [("foreign_keys", .num 1)]) [] ["a", "b"]).1 := by
  constructor
  · rfl
  · intro hmem
    have : (dropAllTablesSqlite
        (fun s =>
          match s with
          | .dropTable "a" => .failure "FOREIGN KEY constraint failed"
          | _ => .success)
        (.obj [("foreign_keys", .num 1)]) [] ["a", "b"]).1
        = [.pragmaForeignKeys, .pragmaOff, .dropTable "a"] := rfl
    rw [this] at hmem
    simp at hmem

/-- Every statement `dropTablesEach` issues is a table drop. -/
theorem dropTablesEach_stmts (exec : SqliteStmt → QueryOutcome)
    (skip tables : List String) :
    ∀ s ∈ (dropTablesEach exec skip tables).1, ∃ n, s = .dropTable n := by
  induction tables with
  | nil => intro s hs; simp [dropTablesEach] at hs
  | cons t rest ih =>
    intro s hs
    rw [dropTablesEach] at hs
    by_cases hskip : skip.contains t
    · rw [if_pos hskip] at hs
      exact ih s hs
    · rw [if_neg hskip] at hs
      cases hexec : exec (.dropTable t) with
      | failure e =>
        rw [hexec] at hs
        simp at hs
        exact ⟨t, hs⟩
      | success =>
        rw [hexec] at hs
        simp at hs
        rcases hs with hs | hs
        · exact ⟨t, hs⟩
        · exact ih s hs

/-- C6, amended: when the pragma statements succeed and enforcement is found
enabled, `dropAllTables` disables it and drops the tables; it re-enables
enforcement only when every drop succeeds — when an intermediate drop fails,
the failure propagates and no re-enable statement is issued, leaving
enforcement disabled. -/
theorem dropAllTablesSqlite_reenables_only_on_success
    (exec : SqliteStmt → QueryOutcome) (pragmaResult : JsVal)
    (skip tables : List String)
    (hq : exec .pragmaForeignKeys = .success)
    (hoff : exec .pragmaOff = .success)
    (hon : (pragmaResult.get "foreign_keys" == JsVal.num 1) = true) :
    ((dropTablesEach exec skip tables).2 = .ok () →
        dropAllTablesSqlite exec pragmaResult skip tables
          = ([.pragmaForeignKeys, .pragmaOff]
                ++ (dropTablesEach exec skip tables).1 ++ [.pragmaOn],
              match exec .pragmaOn with
              | .success => .ok ()
              | .failure e => .error e))
      ∧ (∀ e, (dropTablesEach exec skip tables).2 = .error e →
          dropAllTablesSqlite exec pragmaResult skip tables
            = ([.pragmaForeignKeys, .pragmaOff]
                  ++ (dropTablesEach exec skip tables).1, .error e)
            ∧ SqliteStmt.pragmaOn
              ∉ (dropAllTablesSqlite exec pragmaResult skip tables).1) := by
  have hbranch : dropAllTablesSqlite exec pragmaResult skip tables
      = (match (dropTablesEach exec skip tables).2 with
        | .error e =>
            ([.pragmaForeignKeys, .pragmaOff]
              ++ (dropTablesEach exec skip tables).1, .error e)
        | .ok () =>
            match exec .pragmaOn with
            | .failure e =>
                ([.pragmaForeignKeys, .pragmaOff]
                  ++ (dropTablesEach exec skip tables).1 ++ [.pragmaOn],
                  .error e)
            | .success =>
                ([.pragmaForeignKeys, .pragmaOff]
                  ++ (dropTablesEach exec skip tables).1 ++ [.pragmaOn],
                  .ok ())) := by
    unfold dropAllTablesSqlite
    rw [hq, if_pos hon, hoff]
  constructor
  · intro hok
    rw [hbranch, hok]
    cases honres : exec .pragmaOn <;> rfl
  · intro e herr
    rw [hbranch, herr]
    refine ⟨rfl, ?_⟩
    show SqliteStmt.pragmaOn
      ∉ [SqliteStmt.pragmaForeignKeys, SqliteStmt.pragmaOff]
        ++ (dropTablesEach exec skip tables).1
    intro hmem
    simp at hmem
    obtain ⟨n, hn⟩ := dropTablesEach_stmts exec skip tables _ hmem
    cases hn

/-- C6, witness for the amended theorem: with every statement succeeding the
re-enable statement is sent last; with the drop of `a` failing, no re-enable
statement appears in the issued statements. -/
theorem dropAllTablesSqlite_reenables_only_on_success_witness :
    dropAllTablesSqlite (fun _ => .success)
        (.obj [("foreign_keys", .num 1)]) [] ["a"]
      = ([.pragmaForeignKeys, .pragmaOff, .dropTable "a", .pragmaOn], .ok ())
      ∧ SqliteStmt.pragmaOn
        ∉ (dropAllTablesSqlite
            (fun s =>
              match s with
              | .dropTable "a" => .failure "drop failed"
              | _ => .success)
            (.obj [("foreign_keys", .num 1)]) [] ["a"]).1 := by
  constructor
  · have h := dropAllTablesSqlite_reenables_only_on_success
      (fun _ => .success) (.obj [("foreign_keys", .num 1)]) [] ["a"]
      rfl rfl rfl
    exact (h.1 rfl).trans rfl
  · have h := dropAllTablesSqlite_reenables_only_on_success
      (fun s =>
        match s with
        | .dropTable "a" => .failure "drop failed"
        | _ => .success)
      (.obj [("foreign_keys", .num 1)]) [] ["a"] rfl rfl rfl
    exact (h.2 "drop failed" rfl).2

end Sequelize
